import Mathlib

/-!
# Verification of the webhook-relay worker

Shallow embedding of the worker's core modules:

* `src/discord.js` — `postToDiscord`, the Discord delivery client with
  URL validation, rate-limit handling and bounded retry/backoff;
* `src/rss.js` — `handleRSS`, the deduplicating RSS ingestion poll;
* `src/minecraft.js` — `handleMinecraftNews`, the deduplicating
  Minecraft-news ingestion poll;
* `src/kvutils.js` — `readFromKV` / `saveToKV`, the JSON (de)serializing
  key-value helpers.

Network effects are made explicit: the response each `fetch` attempt
would receive is passed in as an oracle, and the functions return a
trace of the outbound calls, sleeps and key-value writes they perform.
Millisecond delays are `Nat`s, HTTP statuses are `Nat`s, timestamps are
`Int`s (the numeric value of `new Date(...)`).
-/

namespace Worker

/-- An HTTP response as seen by `postToDiscord`: its status code and the
optional `retry-after` header, already parsed to a number of seconds
(`none` models an absent header). -/
structure Resp where
  status : Nat
  retryAfter : Option Nat
deriving Repr, DecidableEq

/-- Observable behaviour of one `postToDiscord` invocation: how many
outbound `fetch` calls were made, the sleep durations (ms, in order)
between retries, and the status of the `Response` finally returned. -/
structure Trace where
  calls : Nat
  delays : List Nat
  status : Nat
deriving Repr, DecidableEq

/-- Models the URL validation at the top of `postToDiscord`
(`src/discord.js` lines 4–8): the URL is rejected when it is empty
(falsy), contains the substring `PLACEHOLDER`, or does not start with
`https://discord.com/api/webhooks/` (`startsWith` rendered as a prefix
test on the character list). -/
def invalidWebhookUrl (url : String) : Bool :=
  url == "" || decide ("PLACEHOLDER".toList <:+: url.toList)
    || !("https://discord.com/api/webhooks/".toList.isPrefixOf url.toList)

/-- The exponential-backoff delay `Math.pow(2, attempt) * 1000` ms. -/
def backoffMs (attempt : Nat) : Nat := 2 ^ attempt * 1000

/-- The delay before retrying after a 429: the parsed `retry-after`
header times 1000 if present, else the exponential fallback
(`src/discord.js` lines 34–36). -/
def retryDelayMs (r : Resp) (attempt : Nat) : Nat :=
  match r.retryAfter with
  | some n => n * 1000
  | none => backoffMs attempt

/-- Models the recursive `request` closure inside `postToDiscord`.
`responses attempt` is the outcome of the `fetch` made on that attempt
(numbered from 1): `none` models a thrown network error, `some r` an
HTTP response.  Branches, in source order: 429 (retry with hint/backoff
while `attempt <= maxRetries`, else return a 429 result), other non-ok
(retry on 5xx while `attempt <= maxRetries`, else return a 500 result),
success (return a 200 result); a network error retries with backoff
while `attempt <= maxRetries`, else returns a 500 result. -/
def request (responses : Nat → Option Resp) (maxRetries : Nat) (attempt : Nat) : Trace :=
  match responses attempt with
  | none =>
    if h : attempt ≤ maxRetries then
      let t := request responses maxRetries (attempt + 1)
      ⟨t.calls + 1, backoffMs attempt :: t.delays, t.status⟩
    else
      ⟨1, [], 500⟩
  | some r =>
    if r.status = 429 then
      if h : attempt ≤ maxRetries then
        let t := request responses maxRetries (attempt + 1)
        ⟨t.calls + 1, retryDelayMs r attempt :: t.delays, t.status⟩
      else
        ⟨1, [], 429⟩
    else if 200 ≤ r.status ∧ r.status < 300 then
      ⟨1, [], 200⟩
    else if h : 500 ≤ r.status ∧ attempt ≤ maxRetries then
      let t := request responses maxRetries (attempt + 1)
      ⟨t.calls + 1, backoffMs attempt :: t.delays, t.status⟩
    else
      ⟨1, [], 500⟩
termination_by maxRetries + 1 - attempt
decreasing_by all_goals omega

/-- Models `postToDiscord(webhookUrl, payload, maxRetries)`
(`src/discord.js`): validate the URL (returning a 400 result with no
network call if invalid), then run the retrying `request` loop starting
at attempt 1. -/
def postToDiscord (webhookUrl : String) (responses : Nat → Option Resp)
    (maxRetries : Nat := 3) : Trace :=
  if invalidWebhookUrl webhookUrl then ⟨0, [], 400⟩
  else request responses maxRetries 1

/-! ## The deduplicating ingestion loops (`src/rss.js`, `src/minecraft.js`)

Both polls are modelled as pure functions of: whether the source fetch
succeeded (`fetchOk`, modelling `response.ok` and absence of transport
errors — a failed fetch throws and is caught by the surrounding
`try/catch`), the parsed item list, the id list loaded from KV (`none`
models a missing key, so `readFromKV(...) || []` yields `[]`), and a
delivery oracle giving the status of the `postToDiscord`-based send for
each item.  They return the delivery calls made (in order), the final
in-memory processed id list, the list of `saveToKV` writes performed,
and the HTTP status of the returned `Response`. -/

/-- A parsed RSS feed entry (`parseRSSFeed` output): `published` is the
numeric value of `new Date(entry.published)` used by the sort
comparator. -/
structure Entry where
  id : String
  title : String
  link : String
  content : String
  published : Int
deriving Repr, DecidableEq

/-- The sort order of `src/rss.js` line 47:
`(a, b) => new Date(a.published) - new Date(b.published)`. -/
def entryLe (a b : Entry) : Prop := a.published ≤ b.published

instance : DecidableRel entryLe := fun a b => Int.decLe a.published b.published

/-- A parsed Minecraft article (`parseMinecraftArticles` output). -/
structure Article where
  title : String
  url : String
  date : String
  teaser : String
deriving Repr, DecidableEq

/-- Models `list.slice(-n)`: the last `n` elements (the whole list when
it is shorter). -/
def sliceLast (n : Nat) (l : List α) : List α := l.drop (l.length - n)

/-- Trace of one `handleRSS` run: the `sendEntryToDiscord` calls with the
status each returned, the in-memory `processedEntries` array after the
loop, the `saveToKV` writes, and the status of the returned `Response`. -/
structure RSSRun where
  deliveries : List (Entry × Nat)
  processedFinal : List String
  writes : List (List String)
  status : Nat
deriving Repr, DecidableEq

/-- The `newEntries` array of `src/rss.js` line 39: entries whose id is
not yet in the processed list. -/
def newEntriesOf (entries : List Entry) (processed : List String) : List Entry :=
  entries.filter (fun e => !(processed.contains e.id))

/-- The `sortedNewEntries` array of `src/rss.js` line 47: new entries
sorted by `published` ascending (stable, as `Array.prototype.sort`). -/
def sortedNewEntriesOf (entries : List Entry) (processed : List String) : List Entry :=
  List.insertionSort entryLe (newEntriesOf entries processed)

/-- Models `handleRSS` (`src/rss.js` lines 17–78): on fetch failure the
`try/catch` yields a 500 response with nothing else done; otherwise
load the processed ids (missing key → `[]`), drop entries whose id is
already present, return 200 early if none remain, else sort the new
entries by `published` ascending, send each one — pushing its id onto
`processedEntries` whether the Discord response status is 200 or not
(lines 54–61) — and finally write back `processedEntries.slice(-100)`
in a single `saveToKV`. -/
def handleRSS (fetchOk : Bool) (entries : List Entry) (kv : Option (List String))
    (deliver : Entry → Nat) : RSSRun :=
  if fetchOk then
    if (newEntriesOf entries (kv.getD [])).length = 0 then ⟨[], kv.getD [], [], 200⟩
    else
      ⟨(sortedNewEntriesOf entries (kv.getD [])).map (fun e => (e, deliver e)),
       kv.getD [] ++ (sortedNewEntriesOf entries (kv.getD [])).map (fun e => e.id),
       [sliceLast 100
          (kv.getD [] ++ (sortedNewEntriesOf entries (kv.getD [])).map (fun e => e.id))],
       200⟩
  else ⟨[], [], [], 500⟩

/-- Trace of one `handleMinecraftNews` run, fields as in `RSSRun`. -/
structure MCRun where
  deliveries : List (Article × Nat)
  processedFinal : List String
  writes : List (List String)
  status : Nat
deriving Repr, DecidableEq

/-- The `newArticles` array of `src/minecraft.js` line 39: articles whose
url is not yet in the processed list. -/
def newArticlesOf (articles : List Article) (processed : List String) : List Article :=
  articles.filter (fun a => !(processed.contains a.url))

/-- Models `handleMinecraftNews` (`src/minecraft.js` lines 17–78):
identical shape to `handleRSS` except that articles are keyed by `url`,
the new articles are **not** sorted, and only the first
`newArticles.slice(0, 5)` of them (page order) are processed. -/
def handleMinecraftNews (fetchOk : Bool) (articles : List Article)
    (kv : Option (List String)) (deliver : Article → Nat) : MCRun :=
  if fetchOk then
    if (newArticlesOf articles (kv.getD [])).length = 0 then ⟨[], kv.getD [], [], 200⟩
    else
      ⟨((newArticlesOf articles (kv.getD [])).take 5).map (fun a => (a, deliver a)),
       kv.getD [] ++ ((newArticlesOf articles (kv.getD [])).take 5).map (fun a => a.url),
       [sliceLast 100
          (kv.getD [] ++ ((newArticlesOf articles (kv.getD [])).take 5).map (fun a => a.url))],
       200⟩
  else ⟨[], [], [], 500⟩

/-! ## The KV helpers (`src/kvutils.js`) and the JSON model

`saveToKV` stores `JSON.stringify(value)`; `readFromKV` returns
`data ? JSON.parse(data) : null`.  The two platform builtins are
modelled below by an executable printer and parser over a deep JSON
value type.  Numbers are modelled as integers (JSON fraction/exponent
syntax and IEEE-754 behaviour are outside the model; the repository
only ever stores arrays of strings). -/

mutual
/-- A JSON-serializable value. -/
inductive Json where
  | null : Json
  | bool (b : Bool) : Json
  | num (n : Int) : Json
  | str (s : String) : Json
  | arr (elems : JsonArr) : Json
  | obj (fields : JsonObj) : Json

/-- The elements of a JSON array. -/
inductive JsonArr where
  | nil : JsonArr
  | cons (head : Json) (tail : JsonArr) : JsonArr

/-- The key/value fields of a JSON object. -/
inductive JsonObj where
  | nil : JsonObj
  | cons (key : String) (value : Json) (tail : JsonObj) : JsonObj
end

/-- The decimal digit character for `d < 10`. -/
def digitChar (d : Nat) : Char := Char.ofNat (48 + d)

/-- Lowercase hexadecimal digit character for `d < 16`. -/
def hexChar (d : Nat) : Char :=
  if d < 10 then Char.ofNat (48 + d) else Char.ofNat (87 + d)

/-- Big-endian decimal digits of `n`, fuel-indexed (any `fuel ≥ n`
yields all digits; empty for `n = 0`). -/
def printNatAux : Nat → Nat → List Char
  | 0, _ => []
  | _ + 1, 0 => []
  | fuel + 1, n => printNatAux fuel (n / 10) ++ [digitChar (n % 10)]

/-- Decimal rendering of a natural number, as `JSON.stringify` renders
a nonnegative integer. -/
def printNat (n : Nat) : List Char :=
  if n = 0 then ['0'] else printNatAux n n

/-- Decimal rendering of an integer. -/
def printInt : Int → List Char
  | .ofNat n => printNat n
  | .negSucc m => '-' :: printNat (m + 1)

/-- The escape sequence `JSON.stringify` emits for one character inside
a string literal: `"` and `\` and the named control characters get
two-character escapes, other control characters get `\u00xx`, and
everything else is emitted verbatim. -/
def escChar (c : Char) : List Char :=
  if c = '"' then ['\\', '"']
  else if c = '\\' then ['\\', '\\']
  else if c = '\n' then ['\\', 'n']
  else if c = '\r' then ['\\', 'r']
  else if c = '\t' then ['\\', 't']
  else if c.toNat = 8 then ['\\', 'b']
  else if c.toNat = 12 then ['\\', 'f']
  else if c.toNat < 32 then ['\\', 'u', '0', '0', hexChar (c.toNat / 16), hexChar (c.toNat % 16)]
  else [c]

/-- Escape a whole string body. -/
def escStr : List Char → List Char
  | [] => []
  | c :: cs => escChar c ++ escStr cs

/-- Whether a character list starts with the given character. -/
def headIs (c : Char) : List Char → Bool
  | x :: _ => x = c
  | [] => false

mutual
/-- `JSON.stringify` on a JSON value (canonical output: no
whitespace). -/
def printJson : Json → List Char
  | .null => "null".toList
  | .bool true => "true".toList
  | .bool false => "false".toList
  | .num n => printInt n
  | .str s => '"' :: (escStr s.data ++ ['"'])
  | .arr xs => '[' :: (printArr xs ++ [']'])
  | .obj fs => '\x7b' :: (printObj fs ++ ['\x7d'])

/-- Comma-separated array elements. -/
def printArr : JsonArr → List Char
  | .nil => []
  | .cons x .nil => printJson x
  | .cons x tl => printJson x ++ (',' :: printArr tl)

/-- Comma-separated `"key":value` fields. -/
def printObj : JsonObj → List Char
  | .nil => []
  | .cons k v .nil => '"' :: (escStr k.data ++ ('"' :: ':' :: printJson v))
  | .cons k v tl =>
      ('"' :: (escStr k.data ++ ('"' :: ':' :: printJson v))) ++ (',' :: printObj tl)
end

/-- The numeric value of a hexadecimal digit character. -/
def hexVal (c : Char) : Option Nat :=
  let n := c.toNat
  if 48 ≤ n ∧ n ≤ 57 then some (n - 48)
  else if 97 ≤ n ∧ n ≤ 102 then some (n - 87)
  else if 65 ≤ n ∧ n ≤ 70 then some (n - 55)
  else none

/-- The character denoted by a two-character escape `\e`. -/
def escCode (e : Char) : Option Char :=
  if e = '"' then some '"'
  else if e = '\\' then some '\\'
  else if e = '/' then some '/'
  else if e = 'n' then some '\n'
  else if e = 'r' then some '\r'
  else if e = 't' then some '\t'
  else if e = 'b' then some (Char.ofNat 8)
  else if e = 'f' then some (Char.ofNat 12)
  else none

/-- Parse the body of a JSON string literal (after the opening quote) up
to and including the closing quote, returning the decoded characters
and the remaining input. -/
def parseStringBody : List Char → Option (List Char × List Char)
  | [] => none
  | c :: rest =>
    if c = '"' then some ([], rest)
    else if c = '\\' then
      match rest with
      | 'u' :: h1 :: h2 :: h3 :: h4 :: r =>
          (hexVal h1).bind fun d1 =>
          (hexVal h2).bind fun d2 =>
          (hexVal h3).bind fun d3 =>
          (hexVal h4).bind fun d4 =>
          (parseStringBody r).map fun p =>
            (Char.ofNat (((d1 * 16 + d2) * 16 + d3) * 16 + d4) :: p.1, p.2)
      | e :: r =>
          match escCode e with
          | some d => (parseStringBody r).map (fun p => (d :: p.1, p.2))
          | none => none
      | [] => none
    else (parseStringBody rest).map (fun p => (c :: p.1, p.2))

/-- Parse a run of decimal digits into a natural number. -/
def parseNatChars (cs : List Char) : Option (Nat × List Char) :=
  let ds := cs.takeWhile (fun c => c.isDigit)
  if ds.isEmpty then none
  else some (ds.foldl (fun a c => a * 10 + (c.toNat - 48)) 0,
             cs.dropWhile (fun c => c.isDigit))

mutual
/-- `JSON.parse` on whitespace-free input (the only shape `saveToKV`
ever stores), fuel-indexed to bound the bracket-nesting recursion. -/
def parseValue : Nat → List Char → Option (Json × List Char)
  | 0, _ => none
  | fuel + 1, cs =>
    match cs with
    | [] => none
    | c :: rest =>
      if c = 'n' then
        match rest with
        | 'u' :: 'l' :: 'l' :: r => some (.null, r)
        | _ => none
      else if c = 't' then
        match rest with
        | 'r' :: 'u' :: 'e' :: r => some (.bool true, r)
        | _ => none
      else if c = 'f' then
        match rest with
        | 'a' :: 'l' :: 's' :: 'e' :: r => some (.bool false, r)
        | _ => none
      else if c = '"' then
        (parseStringBody rest).map (fun p => (.str ⟨p.1⟩, p.2))
      else if c = '[' then
        if headIs ']' rest then some (.arr .nil, rest.tail)
        else (parseArr fuel rest).map (fun p => (.arr p.1, p.2))
      else if c = '\x7b' then
        if headIs '\x7d' rest then some (.obj .nil, rest.tail)
        else (parseObj fuel rest).map (fun p => (.obj p.1, p.2))
      else if c = '-' then
        (parseNatChars rest).map (fun p => (.num (-(p.1 : Int)), p.2))
      else
        (parseNatChars (c :: rest)).map (fun p => (.num (p.1 : Int), p.2))

/-- Parse one or more comma-separated array elements and the closing
bracket. -/
def parseArr : Nat → List Char → Option (JsonArr × List Char)
  | 0, _ => none
  | fuel + 1, cs =>
    (parseValue fuel cs).bind fun p =>
      if headIs ',' p.2 then
        (parseArr fuel p.2.tail).map (fun q => (JsonArr.cons p.1 q.1, q.2))
      else if headIs ']' p.2 then some (JsonArr.cons p.1 .nil, p.2.tail)
      else none

/-- Parse one or more comma-separated object fields and the closing
brace. -/
def parseObj : Nat → List Char → Option (JsonObj × List Char)
  | 0, _ => none
  | fuel + 1, cs =>
    if headIs '"' cs then
      (parseStringBody cs.tail).bind fun kp =>
        if headIs ':' kp.2 then
          (parseValue fuel kp.2.tail).bind fun vp =>
            if headIs ',' vp.2 then
              (parseObj fuel vp.2.tail).map (fun q => (JsonObj.cons ⟨kp.1⟩ vp.1 q.1, q.2))
            else if headIs '\x7d' vp.2 then
              some (JsonObj.cons ⟨kp.1⟩ vp.1 .nil, vp.2.tail)
            else none
        else none
    else none
end

/-- Models `JSON.stringify(value)` as called by `saveToKV`. -/
def stringifyJson (v : Json) : String := ⟨printJson v⟩

/-- Models `JSON.parse(data)` as called by `readFromKV` (`none` models
the `SyntaxError` exception on malformed input). -/
def parseJson (s : String) : Option Json :=
  match parseValue (s.data.length + 1) s.data with
  | some (v, []) => some v
  | _ => none

/-- The key-value capability: `namespace → key → stored string`. -/
def KVStore : Type := String → String → Option String

/-- `env[namespace].put(key, val)`. -/
def kvPut (env : KVStore) (ns key val : String) : KVStore :=
  fun ns2 key2 => if ns2 = ns ∧ key2 = key then some val else env ns2 key2

/-- A store in which no key was ever written. -/
def kvEmpty : KVStore := fun _ _ => none

/-- Models `saveToKV(env, namespace, key, value)` (`src/kvutils.js`
line 22): `await env[namespace].put(key, JSON.stringify(value))`. -/
def saveToKV (env : KVStore) (ns key : String) (value : Json) : KVStore :=
  kvPut env ns key (stringifyJson value)

/-- Models `readFromKV(env, namespace, key)` (`src/kvutils.js` lines
9–10): `data = await env[namespace].get(key); return data ?
JSON.parse(data) : null`.  `.ok none` models the `null` result (missing
key, or the falsy empty string); `.error` models the exception
`JSON.parse` would throw. -/
def readFromKV (env : KVStore) (ns key : String) : Except String (Option Json) :=
  match env ns key with
  | none => .ok none
  | some data =>
    if data = "" then .ok none
    else
      match parseJson data with
      | some v => .ok (some v)
      | none => .error "SyntaxError: Unexpected token in JSON"

/-- The input ahead of the parser does not begin with a decimal digit
(so a parsed number cannot run into it). -/
def headNotDigit : List Char → Prop
  | [] => True
  | c :: _ => c.isDigit = false

mutual
/-- Structural size of a JSON value, bounding the parser fuel needed. -/
def sizeJ : Json → Nat
  | .arr xs => 1 + sizeA xs
  | .obj fs => 1 + sizeO fs
  | _ => 1

/-- Structural size of a JSON array tail. -/
def sizeA : JsonArr → Nat
  | .nil => 0
  | .cons x tl => 1 + sizeJ x + sizeA tl

/-- Structural size of a JSON object tail. -/
def sizeO : JsonObj → Nat
  | .nil => 0
  | .cons _ v tl => 1 + sizeJ v + sizeO tl
end

/-- In a run where every attempt receives a 429 whose hint is given by
`hint`, the trace from attempt `maxRetries + 1 - d` onward makes
`d + 1` calls, sleeps once per retry with the hinted or exponential
delay, and ends with status 429. -/
theorem request_all429 (hint : Nat → Option Nat) (maxRetries : Nat) :
    ∀ d, d ≤ maxRetries →
      request (fun a => some ⟨429, hint a⟩) maxRetries (maxRetries + 1 - d) =
        ⟨d + 1,
         (List.range' (maxRetries + 1 - d) d).map
           (fun a => retryDelayMs ⟨429, hint a⟩ a),
         429⟩ := by
  intro d
  induction d with
  | zero =>
    intro _
    rw [request]
    simp only []
    rw [dif_neg (by omega)]
    rfl
  | succ d ih =>
    intro hd
    rw [request]
    simp only []
    rw [dif_pos (by omega)]
    have h1 : maxRetries + 1 - (d + 1) + 1 = maxRetries + 1 - d := by omega
    rw [h1, ih (by omega)]
    simp only [List.range']
    rw [h1]
    simp only [if_true, List.map_cons]

/-- C1: a `postToDiscord` call with a valid webhook URL and `maxRetries = N`
in which every attempt receives HTTP 429 makes exactly `N + 1` outbound
calls (1 initial + `N` retries) and returns the rate-limit-exceeded
status 429, distinct from the generic delivery-failure status 500. -/
theorem postToDiscord_retry_exhaustion_429 (url : String) (hint : Nat → Option Nat)
    (maxRetries : Nat) (hurl : invalidWebhookUrl url = false) :
    (postToDiscord url (fun a => some ⟨429, hint a⟩) maxRetries).calls = maxRetries + 1 ∧
    (postToDiscord url (fun a => some ⟨429, hint a⟩) maxRetries).status = 429 ∧
    (postToDiscord url (fun a => some ⟨429, hint a⟩) maxRetries).status ≠ 500 := by
  have h := request_all429 hint maxRetries maxRetries le_rfl
  have h1 : maxRetries + 1 - maxRetries = 1 := by omega
  rw [h1] at h
  simp only [postToDiscord, hurl, Bool.false_eq_true, if_false, h]
  exact ⟨trivial, trivial, by decide⟩

set_option maxRecDepth 10000 in
theorem postToDiscord_retry_exhaustion_429_witness :
    invalidWebhookUrl "https://discord.com/api/webhooks/1/a" = false ∧
    ((postToDiscord "https://discord.com/api/webhooks/1/a"
        (fun a => some ⟨429, (fun _ => (none : Option Nat)) a⟩) 2).calls = 2 + 1 ∧
     (postToDiscord "https://discord.com/api/webhooks/1/a"
        (fun a => some ⟨429, (fun _ => (none : Option Nat)) a⟩) 2).status = 429 ∧
     (postToDiscord "https://discord.com/api/webhooks/1/a"
        (fun a => some ⟨429, (fun _ => (none : Option Nat)) a⟩) 2).status ≠ 500) :=
  ⟨by decide,
   postToDiscord_retry_exhaustion_429 "https://discord.com/api/webhooks/1/a"
     (fun _ => none) 2 (by decide)⟩

/-- C2: in a run where every attempt is rate-limited, the wait before the
retry issued after the 429 at attempt `a` is exactly the server hint
times 1000 ms when a `retry-after` hint is present, and `2 ^ a * 1000`
ms when absent (2 s before the first retry, 4 s before the second,
8 s before the third, …); the run makes one such wait per retry,
at attempts `1, …, maxRetries`. -/
theorem postToDiscord_retry_delays (url : String) (hint : Nat → Option Nat)
    (maxRetries : Nat) (hurl : invalidWebhookUrl url = false) :
    (postToDiscord url (fun a => some ⟨429, hint a⟩) maxRetries).delays =
      (List.range' 1 maxRetries).map
        (fun a => match hint a with
          | some n => n * 1000
          | none => 2 ^ a * 1000) := by
  have h := request_all429 hint maxRetries maxRetries le_rfl
  have h1 : maxRetries + 1 - maxRetries = 1 := by omega
  rw [h1] at h
  simp only [postToDiscord, hurl, Bool.false_eq_true, if_false, h]
  rfl

set_option maxRecDepth 10000 in
theorem postToDiscord_retry_delays_witness :
    invalidWebhookUrl "https://discord.com/api/webhooks/1/a" = false ∧
    (postToDiscord "https://discord.com/api/webhooks/1/a"
        (fun a => some ⟨429, (fun b => if b = 1 then some 2 else none) a⟩) 3).delays =
      [2000, 4000, 8000] :=
  ⟨by decide,
   (postToDiscord_retry_delays "https://discord.com/api/webhooks/1/a"
      (fun b => if b = 1 then some 2 else none) 3 (by decide)).trans (by decide)⟩

/-- C3: when the destination URL is empty, contains the `PLACEHOLDER`
marker, or does not start with the expected webhook prefix,
`postToDiscord` makes zero outbound calls, sleeps zero times, and
returns a client-error result with status 400 immediately. -/
theorem postToDiscord_invalid_url (url : String) (responses : Nat → Option Resp)
    (maxRetries : Nat)
    (h : url = "" ∨ ("PLACEHOLDER".toList <:+: url.toList) ∨
         ¬ ("https://discord.com/api/webhooks/".toList <+: url.toList)) :
    postToDiscord url responses maxRetries = ⟨0, [], 400⟩ := by
  have hinv : invalidWebhookUrl url = true := by
    simp only [invalidWebhookUrl, Bool.or_eq_true, beq_iff_eq, decide_eq_true_eq,
      Bool.not_eq_true', List.isPrefixOf_iff_prefix]
    rcases h with h | h | h
    · exact Or.inl (Or.inl h)
    · exact Or.inl (Or.inr h)
    · exact Or.inr (Bool.eq_false_iff.mpr fun hb => h (List.isPrefixOf_iff_prefix.mp hb))
  simp [postToDiscord, hinv]

set_option maxRecDepth 10000 in
theorem postToDiscord_invalid_url_witness :
    ("PLACEHOLDER".toList <:+: "https://example.com/PLACEHOLDER/x".toList) ∧
    postToDiscord "https://example.com/PLACEHOLDER/x" (fun _ => some ⟨200, none⟩) 3 =
      ⟨0, [], 400⟩ :=
  ⟨by decide,
   postToDiscord_invalid_url "https://example.com/PLACEHOLDER/x" (fun _ => some ⟨200, none⟩) 3
     (Or.inr (Or.inl (by decide)))⟩

theorem sliceLast_length (n : Nat) (l : List α) :
    (sliceLast n l).length = min n l.length := by
  simp [sliceLast]; omega

theorem sliceLast_suffix (n : Nat) (l : List α) : sliceLast n l <:+ l :=
  List.drop_suffix _ _

theorem contains_false_iff (l : List String) (a : String) :
    l.contains a = false ↔ a ∉ l := by
  rw [← Bool.not_eq_true, List.contains_iff_exists_mem_beq]
  simp

theorem handleRSS_fail (entries : List Entry) (kv : Option (List String))
    (deliver : Entry → Nat) : handleRSS false entries kv deliver = ⟨[], [], [], 500⟩ := rfl

theorem handleRSS_no_new (entries : List Entry) (kv : Option (List String))
    (deliver : Entry → Nat) (h : (newEntriesOf entries (kv.getD [])).length = 0) :
    handleRSS true entries kv deliver = ⟨[], kv.getD [], [], 200⟩ := by
  unfold handleRSS
  rw [if_pos rfl, if_pos h]

theorem handleRSS_main (entries : List Entry) (kv : Option (List String))
    (deliver : Entry → Nat) (h : ¬ (newEntriesOf entries (kv.getD [])).length = 0) :
    handleRSS true entries kv deliver =
      ⟨(sortedNewEntriesOf entries (kv.getD [])).map (fun e => (e, deliver e)),
       kv.getD [] ++ (sortedNewEntriesOf entries (kv.getD [])).map (fun e => e.id),
       [sliceLast 100
          (kv.getD [] ++ (sortedNewEntriesOf entries (kv.getD [])).map (fun e => e.id))],
       200⟩ := by
  unfold handleRSS
  rw [if_pos rfl, if_neg h]

theorem handleMinecraftNews_fail (articles : List Article) (kv : Option (List String))
    (deliver : Article → Nat) :
    handleMinecraftNews false articles kv deliver = ⟨[], [], [], 500⟩ := rfl

theorem handleMinecraftNews_no_new (articles : List Article) (kv : Option (List String))
    (deliver : Article → Nat) (h : (newArticlesOf articles (kv.getD [])).length = 0) :
    handleMinecraftNews true articles kv deliver = ⟨[], kv.getD [], [], 200⟩ := by
  unfold handleMinecraftNews
  rw [if_pos rfl, if_pos h]

theorem handleMinecraftNews_main (articles : List Article) (kv : Option (List String))
    (deliver : Article → Nat) (h : ¬ (newArticlesOf articles (kv.getD [])).length = 0) :
    handleMinecraftNews true articles kv deliver =
      ⟨((newArticlesOf articles (kv.getD [])).take 5).map (fun a => (a, deliver a)),
       kv.getD [] ++ ((newArticlesOf articles (kv.getD [])).take 5).map (fun a => a.url),
       [sliceLast 100
          (kv.getD [] ++ ((newArticlesOf articles (kv.getD [])).take 5).map (fun a => a.url))],
       200⟩ := by
  unfold handleMinecraftNews
  rw [if_pos rfl, if_neg h]

/-- C4: in every run of either poll, at most one `saveToKV` write occurs
(exactly one when any delivery was made), and every written id list has
length at most 100 and is the suffix of the in-memory processed list of
length `min 100 (length)` — i.e. only the most recently appended 100
ids survive, oldest evicted first. -/
theorem persisted_set_bounded :
    (∀ (fetchOk : Bool) (entries : List Entry) (kv : Option (List String))
       (deliver : Entry → Nat),
       (handleRSS fetchOk entries kv deliver).writes.length ≤ 1 ∧
       ((handleRSS fetchOk entries kv deliver).deliveries ≠ [] →
         (handleRSS fetchOk entries kv deliver).writes.length = 1) ∧
       ∀ w ∈ (handleRSS fetchOk entries kv deliver).writes,
         w.length ≤ 100 ∧ w <:+ (handleRSS fetchOk entries kv deliver).processedFinal ∧
         w.length = min 100 (handleRSS fetchOk entries kv deliver).processedFinal.length) ∧
    (∀ (fetchOk : Bool) (articles : List Article) (kv : Option (List String))
       (deliver : Article → Nat),
       (handleMinecraftNews fetchOk articles kv deliver).writes.length ≤ 1 ∧
       ((handleMinecraftNews fetchOk articles kv deliver).deliveries ≠ [] →
         (handleMinecraftNews fetchOk articles kv deliver).writes.length = 1) ∧
       ∀ w ∈ (handleMinecraftNews fetchOk articles kv deliver).writes,
         w.length ≤ 100 ∧
         w <:+ (handleMinecraftNews fetchOk articles kv deliver).processedFinal ∧
         w.length = min 100 (handleMinecraftNews fetchOk articles kv deliver).processedFinal.length) := by
  constructor
  · intro fetchOk entries kv deliver
    cases fetchOk with
    | false => rw [handleRSS_fail]; exact ⟨by simp, by simp, by simp⟩
    | true =>
      by_cases h : (newEntriesOf entries (kv.getD [])).length = 0
      · rw [handleRSS_no_new entries kv deliver h]; exact ⟨by simp, by simp, by simp⟩
      · rw [handleRSS_main entries kv deliver h]
        refine ⟨by simp, fun _ => by simp, ?_⟩
        intro w hw
        simp only [List.mem_singleton] at hw
        subst hw
        exact ⟨by rw [sliceLast_length]; exact Nat.min_le_left _ _,
               sliceLast_suffix _ _, sliceLast_length _ _⟩
  · intro fetchOk articles kv deliver
    cases fetchOk with
    | false => rw [handleMinecraftNews_fail]; exact ⟨by simp, by simp, by simp⟩
    | true =>
      by_cases h : (newArticlesOf articles (kv.getD [])).length = 0
      · rw [handleMinecraftNews_no_new articles kv deliver h]
        exact ⟨by simp, by simp, by simp⟩
      · rw [handleMinecraftNews_main articles kv deliver h]
        refine ⟨by simp, fun _ => by simp, ?_⟩
        intro w hw
        simp only [List.mem_singleton] at hw
        subst hw
        exact ⟨by rw [sliceLast_length]; exact Nat.min_le_left _ _,
               sliceLast_suffix _ _, sliceLast_length _ _⟩

set_option maxRecDepth 10000 in
theorem persisted_set_bounded_witness :
    (["A"] ∈ (handleRSS true [⟨"A", "t", "l", "c", 1⟩] none (fun _ => 200)).writes) ∧
    (["A"].length ≤ 100 ∧
     ["A"] <:+ (handleRSS true [⟨"A", "t", "l", "c", 1⟩] none (fun _ => 200)).processedFinal ∧
     ["A"].length =
       min 100 (handleRSS true [⟨"A", "t", "l", "c", 1⟩] none (fun _ => 200)).processedFinal.length) :=
  ⟨by decide,
   (persisted_set_bounded.1 true [⟨"A", "t", "l", "c", 1⟩] none (fun _ => 200)).2.2
     ["A"] (by decide)⟩

/-- C5: any item whose stable id is already in the id set loaded from KV
at the start of the poll is filtered out before delivery: no delivery
call of the run carries such an id, in either loop, so re-running a
poll over the same source cannot deliver an already-processed id
again. -/
theorem dedup_skips_processed :
    (∀ (fetchOk : Bool) (entries : List Entry) (kv : Option (List String))
       (deliver : Entry → Nat) (p : Entry × Nat),
       p ∈ (handleRSS fetchOk entries kv deliver).deliveries → p.1.id ∉ kv.getD []) ∧
    (∀ (fetchOk : Bool) (articles : List Article) (kv : Option (List String))
       (deliver : Article → Nat) (p : Article × Nat),
       p ∈ (handleMinecraftNews fetchOk articles kv deliver).deliveries →
         p.1.url ∉ kv.getD []) := by
  constructor
  · intro fetchOk entries kv deliver p hp
    cases fetchOk with
    | false => rw [handleRSS_fail] at hp; simp at hp
    | true =>
      by_cases h : (newEntriesOf entries (kv.getD [])).length = 0
      · rw [handleRSS_no_new entries kv deliver h] at hp; simp at hp
      · rw [handleRSS_main entries kv deliver h] at hp
        simp only [List.mem_map] at hp
        obtain ⟨e, he, rfl⟩ := hp
        simp only [sortedNewEntriesOf] at he
        have he2 := ((List.perm_insertionSort entryLe _).mem_iff).mp he
        simp only [newEntriesOf, List.mem_filter, Bool.not_eq_true'] at he2
        exact (contains_false_iff _ _).mp he2.2
  · intro fetchOk articles kv deliver p hp
    cases fetchOk with
    | false => rw [handleMinecraftNews_fail] at hp; simp at hp
    | true =>
      by_cases h : (newArticlesOf articles (kv.getD [])).length = 0
      · rw [handleMinecraftNews_no_new articles kv deliver h] at hp; simp at hp
      · rw [handleMinecraftNews_main articles kv deliver h] at hp
        simp only [List.mem_map] at hp
        obtain ⟨a, ha, rfl⟩ := hp
        have ha2 : a ∈ newArticlesOf articles (kv.getD []) := List.mem_of_mem_take ha
        simp only [newArticlesOf, List.mem_filter, Bool.not_eq_true'] at ha2
        exact (contains_false_iff _ _).mp ha2.2

set_option maxRecDepth 10000 in
theorem dedup_skips_processed_witness :
    ((⟨"B", "t", "l", "c", 2⟩, 200) ∈
       (handleRSS true [⟨"A", "t", "l", "c", 1⟩, ⟨"B", "t", "l", "c", 2⟩]
         (some ["A"]) (fun _ => 200)).deliveries) ∧
    ((⟨"B", "t", "l", "c", 2⟩ : Entry).id ∉ (some ["A"] : Option (List String)).getD []) :=
  ⟨by decide,
   dedup_skips_processed.1 true [⟨"A", "t", "l", "c", 1⟩, ⟨"B", "t", "l", "c", 2⟩]
     (some ["A"]) (fun _ => 200) (⟨"B", "t", "l", "c", 2⟩, 200) (by decide)⟩

/-- C8: the persisted state of a run does not depend on the delivery
statuses at all — every emitted item's stable id is pushed onto the
in-memory processed list whether its delivery returned 200 or any
failure status — and each delivered item's id is in that final
in-memory list. -/
theorem marked_processed_regardless :
    (∀ (fetchOk : Bool) (entries : List Entry) (kv : Option (List String))
       (d1 d2 : Entry → Nat),
       (handleRSS fetchOk entries kv d1).processedFinal =
         (handleRSS fetchOk entries kv d2).processedFinal ∧
       (handleRSS fetchOk entries kv d1).writes = (handleRSS fetchOk entries kv d2).writes) ∧
    (∀ (fetchOk : Bool) (entries : List Entry) (kv : Option (List String))
       (deliver : Entry → Nat) (p : Entry × Nat),
       p ∈ (handleRSS fetchOk entries kv deliver).deliveries →
         p.1.id ∈ (handleRSS fetchOk entries kv deliver).processedFinal) ∧
    (∀ (fetchOk : Bool) (articles : List Article) (kv : Option (List String))
       (d1 d2 : Article → Nat),
       (handleMinecraftNews fetchOk articles kv d1).processedFinal =
         (handleMinecraftNews fetchOk articles kv d2).processedFinal ∧
       (handleMinecraftNews fetchOk articles kv d1).writes =
         (handleMinecraftNews fetchOk articles kv d2).writes) ∧
    (∀ (fetchOk : Bool) (articles : List Article) (kv : Option (List String))
       (deliver : Article → Nat) (p : Article × Nat),
       p ∈ (handleMinecraftNews fetchOk articles kv deliver).deliveries →
         p.1.url ∈ (handleMinecraftNews fetchOk articles kv deliver).processedFinal) := by
  refine ⟨?_, ?_, ?_, ?_⟩
  · intro fetchOk entries kv d1 d2
    cases fetchOk with
    | false => exact ⟨rfl, rfl⟩
    | true =>
      by_cases h : (newEntriesOf entries (kv.getD [])).length = 0
      · rw [handleRSS_no_new entries kv d1 h, handleRSS_no_new entries kv d2 h]
        exact ⟨rfl, rfl⟩
      · rw [handleRSS_main entries kv d1 h, handleRSS_main entries kv d2 h]
        exact ⟨rfl, rfl⟩
  · intro fetchOk entries kv deliver p hp
    cases fetchOk with
    | false => rw [handleRSS_fail] at hp; simp at hp
    | true =>
      by_cases h : (newEntriesOf entries (kv.getD [])).length = 0
      · rw [handleRSS_no_new entries kv deliver h] at hp; simp at hp
      · rw [handleRSS_main entries kv deliver h] at hp ⊢
        simp only [List.mem_map] at hp
        obtain ⟨e, he, rfl⟩ := hp
        exact List.mem_append_right _ (List.mem_map_of_mem (fun e => e.id) he)
  · intro fetchOk articles kv d1 d2
    cases fetchOk with
    | false => exact ⟨rfl, rfl⟩
    | true =>
      by_cases h : (newArticlesOf articles (kv.getD [])).length = 0
      · rw [handleMinecraftNews_no_new articles kv d1 h,
            handleMinecraftNews_no_new articles kv d2 h]
        exact ⟨rfl, rfl⟩
      · rw [handleMinecraftNews_main articles kv d1 h,
            handleMinecraftNews_main articles kv d2 h]
        exact ⟨rfl, rfl⟩
  · intro fetchOk articles kv deliver p hp
    cases fetchOk with
    | false => rw [handleMinecraftNews_fail] at hp; simp at hp
    | true =>
      by_cases h : (newArticlesOf articles (kv.getD [])).length = 0
      · rw [handleMinecraftNews_no_new articles kv deliver h] at hp; simp at hp
      · rw [handleMinecraftNews_main articles kv deliver h] at hp ⊢
        simp only [List.mem_map] at hp
        obtain ⟨a, ha, rfl⟩ := hp
        exact List.mem_append_right _ (List.mem_map_of_mem (fun a => a.url) ha)

set_option maxRecDepth 10000 in
theorem marked_processed_regardless_witness :
    ((⟨"A", "t", "l", "c", 1⟩, 500) ∈
       (handleRSS true [⟨"A", "t", "l", "c", 1⟩] none (fun _ => 500)).deliveries) ∧
    ((⟨"A", "t", "l", "c", 1⟩ : Entry).id ∈
       (handleRSS true [⟨"A", "t", "l", "c", 1⟩] none (fun _ => 500)).processedFinal) :=
  ⟨by decide,
   marked_processed_regardless.2.1 true [⟨"A", "t", "l", "c", 1⟩] none (fun _ => 500)
     (⟨"A", "t", "l", "c", 1⟩, 500) (by decide)⟩

/-- C6 (code bug, concrete evaluation): three new Minecraft articles
arriving newest-first (dates 2024-01-03, 2024-01-02, 2024-01-01) are
delivered in page order — newest first — not in chronologically
ascending order: `handleMinecraftNews` never sorts (`newArticles.slice(0, 5)`
keeps page order), unlike `handleRSS`, although the repository's
Minecraft integration doc states "Processing Order: Oldest articles
first". -/
theorem minecraftNews_not_chronological :
    (handleMinecraftNews true
        [⟨"T3", "u3", "2024-01-03", "x"⟩, ⟨"T2", "u2", "2024-01-02", "x"⟩,
         ⟨"T1", "u1", "2024-01-01", "x"⟩] none (fun _ => 200)).deliveries.map
        (fun p => p.1.date) = ["2024-01-03", "2024-01-02", "2024-01-01"] ∧
    (handleMinecraftNews true
        [⟨"T3", "u3", "2024-01-03", "x"⟩, ⟨"T2", "u2", "2024-01-02", "x"⟩,
         ⟨"T1", "u1", "2024-01-01", "x"⟩] none (fun _ => 200)).deliveries.map
        (fun p => p.1.date) ≠ ["2024-01-01", "2024-01-02", "2024-01-03"] :=
  ⟨by decide, by decide⟩

/-- C7 (counterexample): the RSS poll given 6 new entries makes 6
delivery calls, not exactly 5 as the claim requires; and the Minecraft
poll given 6 new articles delivers the first 5 in page order, leaving
out `u6` even though `u6` is the oldest-published article the claim
requires to be among the 5 chosen. -/
theorem cap_not_respected_counterexample :
    (handleRSS true
        [⟨"1", "t", "l", "c", 1⟩, ⟨"2", "t", "l", "c", 2⟩, ⟨"3", "t", "l", "c", 3⟩,
         ⟨"4", "t", "l", "c", 4⟩, ⟨"5", "t", "l", "c", 5⟩, ⟨"6", "t", "l", "c", 6⟩]
        none (fun _ => 200)).deliveries.length = 6 ∧
    (handleMinecraftNews true
        [⟨"t1", "u1", "2024-01-06", "x"⟩, ⟨"t2", "u2", "2024-01-05", "x"⟩,
         ⟨"t3", "u3", "2024-01-04", "x"⟩, ⟨"t4", "u4", "2024-01-03", "x"⟩,
         ⟨"t5", "u5", "2024-01-02", "x"⟩, ⟨"t6", "u6", "2024-01-01", "x"⟩]
        none (fun _ => 200)).deliveries.map (fun p => p.1.url) =
      ["u1", "u2", "u3", "u4", "u5"] :=
  ⟨by decide, by decide⟩

/-- C7 (amended): only the Minecraft loop caps a run, at 5 items, taking
the first 5 new articles in page order (not the earliest-published
ones); capped-out articles are not added to the persisted set (given
distinct article urls), so a later poll still sees them as new; the
RSS loop applies no cap and delivers every new entry of the run. -/
theorem maxItemsPerRun_cap :
    (∀ (articles : List Article) (kv : Option (List String)) (deliver : Article → Nat),
       5 < (newArticlesOf articles (kv.getD [])).length →
       ((handleMinecraftNews true articles kv deliver).deliveries.length = 5 ∧
        (handleMinecraftNews true articles kv deliver).deliveries.map Prod.fst =
          (newArticlesOf articles (kv.getD [])).take 5 ∧
        ((articles.map (fun a => a.url)).Nodup →
          ∀ a ∈ (newArticlesOf articles (kv.getD [])).drop 5,
            ∀ w ∈ (handleMinecraftNews true articles kv deliver).writes, a.url ∉ w))) ∧
    (∀ (entries : List Entry) (kv : Option (List String)) (deliver : Entry → Nat),
       (handleRSS true entries kv deliver).deliveries.length =
         (newEntriesOf entries (kv.getD [])).length) := by
  constructor
  · intro articles kv deliver hlen
    have h : ¬ (newArticlesOf articles (kv.getD [])).length = 0 := by omega
    rw [handleMinecraftNews_main articles kv deliver h]
    refine ⟨?_, ?_, ?_⟩
    · simp only [List.length_map, List.length_take]
      omega
    · show List.map Prod.fst
            (List.map (fun a => (a, deliver a)) ((newArticlesOf articles (kv.getD [])).take 5)) =
          (newArticlesOf articles (kv.getD [])).take 5
      rw [List.map_map,
          show (Prod.fst ∘ fun a : Article => (a, deliver a)) = id from rfl, List.map_id]
    · intro hnodup a ha w hw
      simp only [List.mem_singleton] at hw
      subst hw
      intro hmem
      have hsub := (sliceLast_suffix _ _).subset hmem
      have hanew : a ∈ newArticlesOf articles (kv.getD []) := List.mem_of_mem_drop ha
      rcases List.mem_append.mp hsub with hin | hin
      · have := (List.mem_filter.mp hanew).2
        rw [Bool.not_eq_true'] at this
        exact (contains_false_iff _ _).mp this hin
      · have hnodup2 : ((newArticlesOf articles (kv.getD [])).map (fun a => a.url)).Nodup := by
          refine List.Nodup.sublist ?_ hnodup
          exact (List.filter_sublist _).map _
        have hsplit : (newArticlesOf articles (kv.getD [])).map (fun a => a.url) =
            ((newArticlesOf articles (kv.getD [])).take 5).map (fun a => a.url) ++
              ((newArticlesOf articles (kv.getD [])).drop 5).map (fun a => a.url) := by
          rw [← List.map_append, List.take_append_drop]
        rw [hsplit] at hnodup2
        exact (List.nodup_append.mp hnodup2).2.2 hin
          (List.mem_map_of_mem (fun a => a.url) ha)
  · intro entries kv deliver
    by_cases h : (newEntriesOf entries (kv.getD [])).length = 0
    · rw [handleRSS_no_new entries kv deliver h]
      simpa using h.symm
    · rw [handleRSS_main entries kv deliver h]
      simp only [List.length_map, sortedNewEntriesOf]
      exact (List.perm_insertionSort entryLe _).length_eq

set_option maxRecDepth 10000 in
theorem maxItemsPerRun_cap_witness :
    5 < (newArticlesOf
          [⟨"t1", "u1", "2024-01-06", "x"⟩, ⟨"t2", "u2", "2024-01-05", "x"⟩,
           ⟨"t3", "u3", "2024-01-04", "x"⟩, ⟨"t4", "u4", "2024-01-03", "x"⟩,
           ⟨"t5", "u5", "2024-01-02", "x"⟩, ⟨"t6", "u6", "2024-01-01", "x"⟩]
          ((none : Option (List String)).getD [])).length ∧
    (handleMinecraftNews true
        [⟨"t1", "u1", "2024-01-06", "x"⟩, ⟨"t2", "u2", "2024-01-05", "x"⟩,
         ⟨"t3", "u3", "2024-01-04", "x"⟩, ⟨"t4", "u4", "2024-01-03", "x"⟩,
         ⟨"t5", "u5", "2024-01-02", "x"⟩, ⟨"t6", "u6", "2024-01-01", "x"⟩]
        none (fun _ => 200)).deliveries.length = 5 :=
  ⟨by decide,
   (maxItemsPerRun_cap.1
      [⟨"t1", "u1", "2024-01-06", "x"⟩, ⟨"t2", "u2", "2024-01-05", "x"⟩,
       ⟨"t3", "u3", "2024-01-04", "x"⟩, ⟨"t4", "u4", "2024-01-03", "x"⟩,
       ⟨"t5", "u5", "2024-01-02", "x"⟩, ⟨"t6", "u6", "2024-01-01", "x"⟩]
      none (fun _ => 200) (by decide)).1⟩

/-- C9: when the source fetch fails (non-2xx response or transport
error, both of which throw into the surrounding `try/catch`), either
poll makes no delivery call, performs no KV write (the persisted dedup
state is untouched), and returns a run-level failure response with
status 500. -/
theorem fetch_failure_aborts :
    (∀ (entries : List Entry) (kv : Option (List String)) (deliver : Entry → Nat),
       handleRSS false entries kv deliver = ⟨[], [], [], 500⟩) ∧
    (∀ (articles : List Article) (kv : Option (List String)) (deliver : Article → Nat),
       handleMinecraftNews false articles kv deliver = ⟨[], [], [], 500⟩) :=
  ⟨fun _ _ _ => rfl, fun _ _ _ => rfl⟩

example :
    readFromKV (saveToKV kvEmpty "NS" "K"
        (.arr (.cons (.str "A\n\"x") (.cons (.num (-42)) (.cons .null .nil)))))
      "NS" "K" =
    .ok (some (.arr (.cons (.str "A\n\"x") (.cons (.num (-42)) (.cons .null .nil))))) := rfl

example :
    readFromKV (saveToKV kvEmpty "NS" "K"
        (.obj (.cons "k" (.bool true) (.cons "m" (.str "]") .nil))))
      "NS" "K" =
    .ok (some (.obj (.cons "k" (.bool true) (.cons "m" (.str "]") .nil)))) := rfl

theorem digitChar_isDigit {d : Nat} (h : d < 10) : (digitChar d).isDigit = true := by
  interval_cases d <;> decide

theorem toNat_digitChar {d : Nat} (h : d < 10) : (digitChar d).toNat = 48 + d := by
  interval_cases d <;> decide

theorem hexVal_hexChar {d : Nat} (h : d < 16) : hexVal (hexChar d) = some d := by
  interval_cases d <;> decide

theorem takeWhile_digits_append {l rest : List Char}
    (hl : ∀ c ∈ l, c.isDigit = true) (hr : headNotDigit rest) :
    (l ++ rest).takeWhile (fun c => c.isDigit) = l ∧
    (l ++ rest).dropWhile (fun c => c.isDigit) = rest := by
  induction l with
  | nil =>
    cases rest with
    | nil => exact ⟨rfl, rfl⟩
    | cons c t =>
      have hc : c.isDigit = false := hr
      constructor
      · simp [List.takeWhile_cons, hc]
      · simp [List.dropWhile_cons, hc]
  | cons c t ih =>
    have hc : c.isDigit = true := hl c (List.mem_cons_self c t)
    have iht := ih (fun x hx => hl x (List.mem_cons_of_mem c hx))
    constructor
    · simp [List.takeWhile_cons, hc, iht.1]
    · simp [List.dropWhile_cons, hc, iht.2]

theorem printNatAux_eq {fuel n : Nat} (h : n ≤ fuel) :
    printNatAux fuel n = (Nat.digits 10 n).reverse.map digitChar := by
  induction fuel generalizing n with
  | zero =>
    have : n = 0 := by omega
    subst this
    simp [printNatAux]
  | succ fuel ih =>
    by_cases hn : n = 0
    · subst hn; simp [printNatAux]
    · cases n with
      | zero => exact absurd rfl hn
      | succ m =>
        show printNatAux fuel ((m + 1) / 10) ++ [digitChar ((m + 1) % 10)] = _
        rw [ih (by omega : (m + 1) / 10 ≤ fuel)]
        rw [Nat.digits_def' (by norm_num : (1 : ℕ) < 10) (Nat.succ_pos m)]
        simp

theorem printNat_eq (n : Nat) :
    printNat n = if n = 0 then ['0'] else (Nat.digits 10 n).reverse.map digitChar := by
  unfold printNat
  by_cases h : n = 0
  · simp [h]
  · simp [h, printNatAux_eq (le_refl n)]

theorem printNat_digits (n : Nat) : ∀ c ∈ printNat n, c.isDigit = true := by
  intro c hc
  rw [printNat_eq] at hc
  by_cases h : n = 0
  · simp [h] at hc
    subst hc; decide
  · simp [h, List.mem_map] at hc
    obtain ⟨d, hd, rfl⟩ := hc
    exact digitChar_isDigit (Nat.digits_lt_base (by norm_num) hd)

theorem printNat_ne_nil (n : Nat) : printNat n ≠ [] := by
  rw [printNat_eq]
  by_cases h : n = 0
  · simp [h]
  · simp [h, Nat.digits_ne_nil_iff_ne_zero.mpr h]

theorem foldl_digitChars (L : List Nat) (hL : ∀ d ∈ L, d < 10) :
    (L.reverse.map digitChar).foldl (fun a c => a * 10 + (c.toNat - 48)) 0 =
      Nat.ofDigits 10 L := by
  induction L with
  | nil => simp
  | cons d L ih =>
    have hd : d < 10 := hL d (List.mem_cons_self d L)
    have ihL := ih (fun x hx => hL x (List.mem_cons_of_mem d hx))
    rw [List.reverse_cons, List.map_append, List.foldl_append, ihL]
    simp only [List.map_cons, List.map_nil, List.foldl_cons, List.foldl_nil]
    rw [toNat_digitChar hd, Nat.ofDigits_cons]
    omega

theorem parseNatChars_printNat (n : Nat) {rest : List Char} (hr : headNotDigit rest) :
    parseNatChars (printNat n ++ rest) = some (n, rest) := by
  obtain ⟨htake, hdrop⟩ := takeWhile_digits_append (printNat_digits n) hr
  unfold parseNatChars
  simp only [htake, hdrop, List.isEmpty_iff]
  rw [if_neg (printNat_ne_nil n)]
  rw [printNat_eq]
  by_cases h : n = 0
  · simp [h]
  · simp only [h, if_false]
    rw [foldl_digitChars _ (fun d hd => Nat.digits_lt_base (by norm_num) hd),
        Nat.ofDigits_digits]

theorem parseStringBody_escChar (c : Char) {X cs rest : List Char}
    (hX : parseStringBody X = some (cs, rest)) :
    parseStringBody (escChar c ++ X) = some (c :: cs, rest) := by
  unfold escChar
  by_cases h1 : c = '"'
  · subst h1; rw [if_pos rfl]
    show (parseStringBody X).map (fun p => ('"' :: p.1, p.2)) = _
    rw [hX]; rfl
  rw [if_neg h1]
  by_cases h2 : c = '\\'
  · subst h2; rw [if_pos rfl]
    show (parseStringBody X).map (fun p => ('\\' :: p.1, p.2)) = _
    rw [hX]; rfl
  rw [if_neg h2]
  by_cases h3 : c = '\n'
  · subst h3; rw [if_pos rfl]
    show (parseStringBody X).map (fun p => ('\n' :: p.1, p.2)) = _
    rw [hX]; rfl
  rw [if_neg h3]
  by_cases h4 : c = '\r'
  · subst h4; rw [if_pos rfl]
    show (parseStringBody X).map (fun p => ('\r' :: p.1, p.2)) = _
    rw [hX]; rfl
  rw [if_neg h4]
  by_cases h5 : c = '\t'
  · subst h5; rw [if_pos rfl]
    show (parseStringBody X).map (fun p => ('\t' :: p.1, p.2)) = _
    rw [hX]; rfl
  rw [if_neg h5]
  by_cases h6 : c.toNat = 8
  · have hc : c = Char.ofNat 8 := by rw [← Char.ofNat_toNat c, h6]
    rw [if_pos h6]
    subst hc
    show (parseStringBody X).map (fun p => (Char.ofNat 8 :: p.1, p.2)) = _
    rw [hX]; rfl
  rw [if_neg h6]
  by_cases h7 : c.toNat = 12
  · have hc : c = Char.ofNat 12 := by rw [← Char.ofNat_toNat c, h7]
    rw [if_pos h7]
    subst hc
    show (parseStringBody X).map (fun p => (Char.ofNat 12 :: p.1, p.2)) = _
    rw [hX]; rfl
  rw [if_neg h7]
  by_cases h8 : c.toNat < 32
  · rw [if_pos h8]
    have hhi : c.toNat / 16 < 16 := by omega
    have hlo : c.toNat % 16 < 16 := by omega
    show ((hexVal (hexChar (c.toNat / 16))).bind fun d3 =>
          (hexVal (hexChar (c.toNat % 16))).bind fun d4 =>
          (parseStringBody X).map fun p =>
            (Char.ofNat ((((0 : Nat) * 16 + 0) * 16 + d3) * 16 + d4) :: p.1, p.2)) = _
    rw [hexVal_hexChar hhi, hexVal_hexChar hlo, hX]
    have harith : c.toNat / 16 * 16 + c.toNat % 16 = c.toNat := by omega
    simp [harith, Char.ofNat_toNat]
  rw [if_neg h8]
  show parseStringBody (c :: X) = _
  unfold parseStringBody
  rw [if_neg h1, if_neg h2, hX]
  rfl

theorem parseStringBody_escStr (l : List Char) (rest : List Char) :
    parseStringBody (escStr l ++ '"' :: rest) = some (l, rest) := by
  induction l with
  | nil =>
    show parseStringBody ('"' :: rest) = _
    unfold parseStringBody
    rw [if_pos rfl]
  | cons c t ih =>
    show parseStringBody (escChar c ++ escStr t ++ '"' :: rest) = _
    rw [List.append_assoc]
    exact parseStringBody_escChar c ih

theorem isDigit_ne_special {c : Char} (h : c.isDigit = true) :
    c ≠ ']' ∧ c ≠ '\x7d' ∧ c ≠ 'n' ∧ c ≠ 't' ∧ c ≠ 'f' ∧ c ≠ '"' ∧ c ≠ '[' ∧
    c ≠ '\x7b' ∧ c ≠ '-' := by
  refine ⟨?_, ?_, ?_, ?_, ?_, ?_, ?_, ?_, ?_⟩ <;> (rintro rfl; exact absurd h (by decide))

theorem printJson_ne_nil (v : Json) : printJson v ≠ [] := by
  cases v with
  | null => simp [printJson]
  | bool b => cases b <;> simp [printJson]
  | num n =>
    cases n with
    | ofNat m => show printNat m ≠ []; exact printNat_ne_nil m
    | negSucc k => simp [printJson, printInt]
  | str s => simp [printJson]
  | arr xs => simp [printJson]
  | obj fs => simp [printJson]

theorem printJson_headIs_close (v : Json) (tail : List Char) :
    headIs ']' (printJson v ++ tail) = false ∧
    headIs '\x7d' (printJson v ++ tail) = false := by
  cases v with
  | null => exact ⟨rfl, rfl⟩
  | bool b => cases b <;> exact ⟨rfl, rfl⟩
  | num n =>
    cases n with
    | ofNat m =>
      show headIs ']' (printNat m ++ tail) = false ∧
           headIs '\x7d' (printNat m ++ tail) = false
      cases hpn : printNat m with
      | nil => exact absurd hpn (printNat_ne_nil m)
      | cons c l =>
        have hc : c.isDigit = true := printNat_digits m c (by rw [hpn]; exact List.mem_cons_self c l)
        obtain ⟨hne1, hne2, _⟩ := isDigit_ne_special hc
        constructor
        · show decide (c = ']') = false
          exact decide_eq_false hne1
        · show decide (c = '\x7d') = false
          exact decide_eq_false hne2
    | negSucc k => exact ⟨rfl, rfl⟩
  | str s => exact ⟨rfl, rfl⟩
  | arr xs => exact ⟨rfl, rfl⟩
  | obj fs => exact ⟨rfl, rfl⟩

theorem sizeJ_pos (v : Json) : 1 ≤ sizeJ v := by
  cases v <;> unfold sizeJ <;> omega

theorem sizeA_pos {xs : JsonArr} (h : xs ≠ .nil) : 1 ≤ sizeA xs := by
  cases xs with
  | nil => exact absurd rfl h
  | cons x tl => unfold sizeA; omega

theorem sizeO_pos {fs : JsonObj} (h : fs ≠ .nil) : 1 ≤ sizeO fs := by
  cases fs with
  | nil => exact absurd rfl h
  | cons k v tl => unfold sizeO; omega

theorem size_le_print : ∀ fuel : Nat,
    (∀ v : Json, sizeJ v ≤ fuel → sizeJ v ≤ (printJson v).length) ∧
    (∀ xs : JsonArr, sizeA xs ≤ fuel → sizeA xs ≤ (printArr xs).length + 1) ∧
    (∀ fs : JsonObj, sizeO fs ≤ fuel → sizeO fs ≤ (printObj fs).length + 1) := by
  intro fuel
  induction fuel with
  | zero =>
    refine ⟨fun v h => ?_, fun xs h => ?_, fun fs h => ?_⟩
    · have := sizeJ_pos v; omega
    · omega
    · omega
  | succ fuel ih =>
    obtain ⟨ihV, ihA, ihO⟩ := ih
    refine ⟨fun v h => ?_, fun xs h => ?_, fun fs h => ?_⟩
    · cases v with
      | null => decide
      | bool b => cases b <;> decide
      | num n =>
        have := List.length_pos.mpr (printJson_ne_nil (.num n))
        unfold sizeJ
        omega
      | str s =>
        have := List.length_pos.mpr (printJson_ne_nil (.str s))
        unfold sizeJ
        omega
      | arr xs =>
        unfold sizeJ at h ⊢
        have hxs := ihA xs (by omega)
        unfold printJson
        simp only [List.length_cons, List.length_append, List.length_singleton]
        omega
      | obj fs =>
        unfold sizeJ at h ⊢
        have hfs := ihO fs (by omega)
        unfold printJson
        simp only [List.length_cons, List.length_append, List.length_singleton]
        omega
    · cases xs with
      | nil => unfold sizeA; omega
      | cons x tl =>
        unfold sizeA at h ⊢
        have hx := ihV x (by omega)
        cases tl with
        | nil =>
          unfold printArr
          unfold sizeA
          omega
        | cons y tl2 =>
          have htl := ihA (.cons y tl2) (by unfold sizeA at h ⊢; omega)
          unfold printArr
          simp only [List.length_append, List.length_cons]
          omega
    · cases fs with
      | nil => unfold sizeO; omega
      | cons k v tl =>
        unfold sizeO at h ⊢
        have hv := ihV v (by omega)
        cases tl with
        | nil =>
          unfold printObj
          unfold sizeO
          simp only [List.length_cons, List.length_append]
          omega
        | cons k2 v2 tl2 =>
          have htl := ihO (.cons k2 v2 tl2) (by unfold sizeO at h ⊢; omega)
          unfold printObj
          simp only [List.length_append, List.length_cons]
          omega

theorem headNotDigit_cons {c : Char} (h : c.isDigit = false) (l : List Char) :
    headNotDigit (c :: l) := h

theorem parseValue_null (fuel : Nat) (X : List Char) :
    parseValue (fuel + 1) ('n' :: 'u' :: 'l' :: 'l' :: X) = some (.null, X) := by
  unfold parseValue; rfl

theorem parseValue_true (fuel : Nat) (X : List Char) :
    parseValue (fuel + 1) ('t' :: 'r' :: 'u' :: 'e' :: X) = some (.bool true, X) := by
  unfold parseValue; rfl

theorem parseValue_false (fuel : Nat) (X : List Char) :
    parseValue (fuel + 1) ('f' :: 'a' :: 'l' :: 's' :: 'e' :: X) = some (.bool false, X) := by
  unfold parseValue; rfl

theorem parseValue_quote (fuel : Nat) (X : List Char) :
    parseValue (fuel + 1) ('"' :: X) =
      (parseStringBody X).map (fun p => (.str ⟨p.1⟩, p.2)) := by
  unfold parseValue; rfl

theorem parseValue_lbrack (fuel : Nat) (X : List Char) :
    parseValue (fuel + 1) ('[' :: X) =
      if headIs ']' X then some (.arr .nil, X.tail)
      else (parseArr fuel X).map (fun p => (.arr p.1, p.2)) := by
  unfold parseValue; rfl

theorem parseValue_lbrace (fuel : Nat) (X : List Char) :
    parseValue (fuel + 1) ('\x7b' :: X) =
      if headIs '\x7d' X then some (.obj .nil, X.tail)
      else (parseObj fuel X).map (fun p => (.obj p.1, p.2)) := by
  unfold parseValue; rfl

theorem parseValue_minus (fuel : Nat) (X : List Char) :
    parseValue (fuel + 1) ('-' :: X) =
      (parseNatChars X).map (fun p => (.num (-(p.1 : Int)), p.2)) := by
  unfold parseValue; rfl

theorem parseValue_digit (fuel : Nat) (c : Char) (X : List Char) (h : c.isDigit = true) :
    parseValue (fuel + 1) (c :: X) =
      (parseNatChars (c :: X)).map (fun p => (.num (p.1 : Int), p.2)) := by
  obtain ⟨_, _, hn, ht, hf, hq, hbk, hbc, hm⟩ := isDigit_ne_special h
  unfold parseValue
  dsimp only
  rw [if_neg hn, if_neg ht, if_neg hf, if_neg hq, if_neg hbk, if_neg hbc, if_neg hm]

theorem parseArr_succ (fuel : Nat) (cs : List Char) :
    parseArr (fuel + 1) cs =
      (parseValue fuel cs).bind fun p =>
        if headIs ',' p.2 then
          (parseArr fuel p.2.tail).map (fun q => (JsonArr.cons p.1 q.1, q.2))
        else if headIs ']' p.2 then some (JsonArr.cons p.1 .nil, p.2.tail)
        else none := by
  conv_lhs => rw [parseArr.eq_def]

theorem parseObj_succ (fuel : Nat) (cs : List Char) :
    parseObj (fuel + 1) cs =
      (if headIs '"' cs then
        (parseStringBody cs.tail).bind fun kp =>
          if headIs ':' kp.2 then
            (parseValue fuel kp.2.tail).bind fun vp =>
              if headIs ',' vp.2 then
                (parseObj fuel vp.2.tail).map (fun q => (JsonObj.cons ⟨kp.1⟩ vp.1 q.1, q.2))
              else if headIs '\x7d' vp.2 then
                some (JsonObj.cons ⟨kp.1⟩ vp.1 .nil, vp.2.tail)
              else none
          else none
      else none) := by
  conv_lhs => rw [parseObj.eq_def]

theorem parseObj_succ_quote (fuel : Nat) (X : List Char) :
    parseObj (fuel + 1) ('"' :: X) =
      ((parseStringBody X).bind fun kp =>
        if headIs ':' kp.2 then
          (parseValue fuel kp.2.tail).bind fun vp =>
            if headIs ',' vp.2 then
              (parseObj fuel vp.2.tail).map (fun q => (JsonObj.cons ⟨kp.1⟩ vp.1 q.1, q.2))
            else if headIs '\x7d' vp.2 then
              some (JsonObj.cons ⟨kp.1⟩ vp.1 .nil, vp.2.tail)
            else none
        else none) := by
  rw [parseObj_succ]
  rfl

theorem printJson_str_eq (s : String) :
    printJson (.str s) = '"' :: (escStr s.data ++ ['"']) := by
  conv_lhs => rw [printJson.eq_def]

theorem printJson_arr_eq (xs : JsonArr) :
    printJson (.arr xs) = '[' :: (printArr xs ++ [']']) := by
  conv_lhs => rw [printJson.eq_def]

theorem printJson_obj_eq (fs : JsonObj) :
    printJson (.obj fs) = '\x7b' :: (printObj fs ++ ['\x7d']) := by
  conv_lhs => rw [printJson.eq_def]

theorem printArr_one (x : Json) : printArr (.cons x .nil) = printJson x := by
  conv_lhs => rw [printArr.eq_def]

theorem printArr_cons (x y : Json) (tl : JsonArr) :
    printArr (.cons x (.cons y tl)) = printJson x ++ (',' :: printArr (.cons y tl)) := by
  conv_lhs => rw [printArr.eq_def]

theorem printObj_one (k : String) (v : Json) :
    printObj (.cons k v .nil) = '"' :: (escStr k.data ++ ('"' :: ':' :: printJson v)) := by
  conv_lhs => rw [printObj.eq_def]

theorem printObj_cons (k : String) (v : Json) (k2 : String) (v2 : Json) (tl : JsonObj) :
    printObj (.cons k v (.cons k2 v2 tl)) =
      ('"' :: (escStr k.data ++ ('"' :: ':' :: printJson v))) ++
        (',' :: printObj (.cons k2 v2 tl)) := by
  conv_lhs => rw [printObj.eq_def]

theorem printArr_cons_head (x : Json) (tl : JsonArr) (tail : List Char) :
    headIs ']' (printArr (.cons x tl) ++ tail) = false := by
  cases tl with
  | nil =>
    rw [printArr_one]
    exact (printJson_headIs_close x tail).1
  | cons y tl2 =>
    rw [printArr_cons, List.append_assoc]
    exact (printJson_headIs_close x _).1

theorem printObj_cons_head (k : String) (v : Json) (tl : JsonObj) (tail : List Char) :
    headIs '\x7d' (printObj (.cons k v tl) ++ tail) = false := by
  cases tl with
  | nil => rw [printObj_one]; rfl
  | cons k2 v2 tl2 => rw [printObj_cons]; rfl

/-- The printer/parser round trip: parsing the printed form of any JSON
value (given enough fuel) succeeds and returns the value with the
trailing input untouched. -/
theorem parse_print : ∀ fuel : Nat,
    (∀ (v : Json) (rest : List Char), sizeJ v ≤ fuel → headNotDigit rest →
       parseValue fuel (printJson v ++ rest) = some (v, rest)) ∧
    (∀ (xs : JsonArr) (rest : List Char), xs ≠ .nil → sizeA xs ≤ fuel →
       parseArr fuel (printArr xs ++ ']' :: rest) = some (xs, rest)) ∧
    (∀ (fs : JsonObj) (rest : List Char), fs ≠ .nil → sizeO fs ≤ fuel →
       parseObj fuel (printObj fs ++ '\x7d' :: rest) = some (fs, rest)) := by
  intro fuel
  induction fuel with
  | zero =>
    refine ⟨fun v rest h _ => ?_, fun xs rest hne h => ?_, fun fs rest hne h => ?_⟩
    · exact absurd h (by have := sizeJ_pos v; omega)
    · exact absurd h (by have := sizeA_pos hne; omega)
    · exact absurd h (by have := sizeO_pos hne; omega)
  | succ fuel ih =>
    obtain ⟨ihV, ihA, ihO⟩ := ih
    refine ⟨fun v rest hs hr => ?_, fun xs rest hne hs => ?_, fun fs rest hne hs => ?_⟩
    · cases v with
      | null => exact parseValue_null fuel rest
      | bool b =>
        cases b with
        | true => exact parseValue_true fuel rest
        | false => exact parseValue_false fuel rest
      | num n =>
        cases n with
        | ofNat m =>
          cases hpn : printNat m with
          | nil => exact absurd hpn (printNat_ne_nil m)
          | cons c l =>
            have hc : c.isDigit = true :=
              printNat_digits m c (by rw [hpn]; exact List.mem_cons_self c l)
            have hshape : printJson (.num (.ofNat m)) ++ rest = c :: (l ++ rest) := by
              show printNat m ++ rest = _
              rw [hpn]; rfl
            rw [hshape, parseValue_digit fuel c _ hc]
            have hback : c :: (l ++ rest) = printNat m ++ rest := by rw [hpn]; rfl
            rw [hback, parseNatChars_printNat m hr]
            rfl
        | negSucc k =>
          have hshape : printJson (.num (.negSucc k)) ++ rest =
              '-' :: (printNat (k + 1) ++ rest) := by
            show ('-' :: printNat (k + 1)) ++ rest = _
            rfl
          rw [hshape, parseValue_minus, parseNatChars_printNat (k + 1) hr]
          simp only [Option.map_some']
          rw [show ((-(((k + 1 : Nat)) : Int)) = Int.negSucc k) from (Int.negSucc_coe k).symm]
      | str s =>
        have hshape : printJson (.str s) ++ rest =
            '"' :: (escStr s.data ++ ('"' :: rest)) := by
          rw [printJson_str_eq]
          simp [List.append_assoc]
        rw [hshape, parseValue_quote, parseStringBody_escStr]
        rfl
      | arr xs =>
        cases xs with
        | nil =>
          rw [show printJson (.arr .nil) ++ rest = '[' :: (']' :: rest) from rfl,
              parseValue_lbrack]
          rfl
        | cons x tl =>
          have hshape : printJson (.arr (.cons x tl)) ++ rest =
              '[' :: (printArr (.cons x tl) ++ (']' :: rest)) := by
            rw [printJson_arr_eq]
            simp [List.append_assoc]
          rw [hshape, parseValue_lbrack, printArr_cons_head x tl]
          simp only [Bool.false_eq_true, if_false]
          rw [ihA (.cons x tl) rest (by intro h; cases h) (by unfold sizeJ at hs; omega)]
          rfl
      | obj fs =>
        cases fs with
        | nil =>
          rw [show printJson (.obj .nil) ++ rest = '\x7b' :: ('\x7d' :: rest) from rfl,
              parseValue_lbrace]
          rfl
        | cons k v tl =>
          have hshape : printJson (.obj (.cons k v tl)) ++ rest =
              '\x7b' :: (printObj (.cons k v tl) ++ ('\x7d' :: rest)) := by
            rw [printJson_obj_eq]
            simp [List.append_assoc]
          rw [hshape, parseValue_lbrace, printObj_cons_head k v tl]
          simp only [Bool.false_eq_true, if_false]
          rw [ihO (.cons k v tl) rest (by intro h; cases h) (by unfold sizeJ at hs; omega)]
          rfl
    · cases xs with
      | nil => exact absurd rfl hne
      | cons x tl =>
        rw [parseArr_succ]
        cases tl with
        | nil =>
          rw [printArr_one,
              ihV x (']' :: rest) (by unfold sizeA at hs; omega)
                (headNotDigit_cons (by decide) _)]
          rfl
        | cons y tl2 =>
          rw [printArr_cons, List.append_assoc, List.cons_append,
              ihV x _ (by unfold sizeA at hs; omega) (headNotDigit_cons (by decide) _)]
          show (parseArr fuel (printArr (.cons y tl2) ++ (']' :: rest))).map
              (fun q => (JsonArr.cons x q.1, q.2)) = some (.cons x (.cons y tl2), rest)
          rw [ihA (.cons y tl2) rest (by intro h; cases h) (by unfold sizeA at hs; omega)]
          rfl
    · cases fs with
      | nil => exact absurd rfl hne
      | cons k v tl =>
        cases tl with
        | nil =>
          have hshape : printObj (.cons k v .nil) ++ ('\x7d' :: rest) =
              '"' :: (escStr k.data ++ ('"' :: (':' :: (printJson v ++ ('\x7d' :: rest))))) := by
            rw [printObj_one]
            simp [List.append_assoc]
          rw [hshape, parseObj_succ_quote, parseStringBody_escStr]
          show (parseValue fuel (printJson v ++ ('\x7d' :: rest))).bind (fun vp =>
              if headIs ',' vp.2 then
                (parseObj fuel vp.2.tail).map
                  (fun q => (JsonObj.cons ⟨k.data⟩ vp.1 q.1, q.2))
              else if headIs '\x7d' vp.2 then
                some (JsonObj.cons ⟨k.data⟩ vp.1 .nil, vp.2.tail)
              else none) = some (.cons k v .nil, rest)
          rw [ihV v ('\x7d' :: rest) (by unfold sizeO at hs; omega)
                (headNotDigit_cons (by decide) _)]
          rfl
        | cons k2 v2 tl2 =>
          have hshape : printObj (.cons k v (.cons k2 v2 tl2)) ++ ('\x7d' :: rest) =
              '"' :: (escStr k.data ++ ('"' :: (':' :: (printJson v ++
                (',' :: (printObj (.cons k2 v2 tl2) ++ ('\x7d' :: rest))))))) := by
            rw [printObj_cons]
            simp [List.append_assoc]
          rw [hshape, parseObj_succ_quote, parseStringBody_escStr]
          show (parseValue fuel (printJson v ++
              (',' :: (printObj (.cons k2 v2 tl2) ++ ('\x7d' :: rest))))).bind (fun vp =>
              if headIs ',' vp.2 then
                (parseObj fuel vp.2.tail).map
                  (fun q => (JsonObj.cons ⟨k.data⟩ vp.1 q.1, q.2))
              else if headIs '\x7d' vp.2 then
                some (JsonObj.cons ⟨k.data⟩ vp.1 .nil, vp.2.tail)
              else none) = some (.cons k v (.cons k2 v2 tl2), rest)
          rw [ihV v _ (by unfold sizeO at hs; omega) (headNotDigit_cons (by decide) _)]
          show (parseObj fuel (printObj (.cons k2 v2 tl2) ++ ('\x7d' :: rest))).map
              (fun q => (JsonObj.cons ⟨k.data⟩ v q.1, q.2)) =
            some (.cons k v (.cons k2 v2 tl2), rest)
          rw [ihO (.cons k2 v2 tl2) rest (by intro h; cases h) (by unfold sizeO at hs; omega)]
          rfl

theorem parseJson_stringify (v : Json) : parseJson (stringifyJson v) = some v := by
  have hsz : sizeJ v ≤ (printJson v).length + 1 := by
    have := (size_le_print (sizeJ v)).1 v le_rfl
    omega
  have h := (parse_print ((printJson v).length + 1)).1 v [] hsz True.intro
  rw [List.append_nil] at h
  unfold parseJson stringifyJson
  dsimp only
  rw [h]

theorem stringifyJson_ne_empty (v : Json) : stringifyJson v ≠ "" := by
  unfold stringifyJson
  intro h
  exact printJson_ne_nil v (congrArg String.data h)

/-- C10: `readFromKV` after `saveToKV` of any JSON value under the same
namespace and key returns exactly that value (the
`JSON.parse ∘ JSON.stringify` round trip); reading a key that was never
written returns `null`, and a write to a different (namespace, key)
pair leaves a read unaffected. -/
theorem kv_json_roundtrip :
    (∀ (env : KVStore) (ns key : String) (v : Json),
       readFromKV (saveToKV env ns key v) ns key = .ok (some v)) ∧
    (∀ ns key : String, readFromKV kvEmpty ns key = .ok none) ∧
    (∀ (env : KVStore) (ns key ns2 key2 : String) (v : Json),
       ns2 ≠ ns ∨ key2 ≠ key →
       readFromKV (saveToKV env ns key v) ns2 key2 = readFromKV env ns2 key2) := by
  refine ⟨?_, ?_, ?_⟩
  · intro env ns key v
    unfold readFromKV saveToKV kvPut
    rw [if_pos ⟨rfl, rfl⟩]
    dsimp only
    rw [if_neg (stringifyJson_ne_empty v), parseJson_stringify]
  · intro ns key
    rfl
  · intro env ns key ns2 key2 v h
    unfold readFromKV saveToKV kvPut
    rw [if_neg (fun hc => h.elim (fun hn => hn hc.1) (fun hk => hk hc.2))]

theorem kv_json_roundtrip_witness :
    ((("N2" : String) ≠ "NS" ∨ ("K" : String) ≠ "K") ∧
     readFromKV (saveToKV kvEmpty "NS" "K" (.arr (.cons (.str "A") .nil))) "N2" "K" =
       readFromKV kvEmpty "N2" "K") ∧
    readFromKV (saveToKV kvEmpty "NS" "K" (.arr (.cons (.str "A") .nil))) "NS" "K" =
      .ok (some (.arr (.cons (.str "A") .nil))) :=
  ⟨⟨Or.inl (by decide),
    kv_json_roundtrip.2.2 kvEmpty "NS" "K" "N2" "K" (.arr (.cons (.str "A") .nil))
      (Or.inl (by decide))⟩,
   kv_json_roundtrip.1 kvEmpty "NS" "K" (.arr (.cons (.str "A") .nil))⟩

end Worker
